import Mathlib

/-!
# Verification of the Corgi3D NFT contract core

Shallow embedding of `src/src/lib.rs` (the `Corgi3D` NEAR contract).

Modelling conventions:
* `near_sdk::collections::UnorderedMap` / `UnorderedSet` are the external
  persistent-storage collaborator; they are modelled at their interface as
  functional maps `κ → Option v` and sets `κ → Bool`.
* `env::sha256` is the external digest collaborator; every operation takes it
  as an explicit parameter `sha : AccountId → Hash` (collision resistance
  becomes an injectivity hypothesis where a claim needs it).
* `env::predecessor_account_id()` and `env::attached_deposit()` are explicit
  arguments `pred` / `attached_deposit` of each operation.
* `env::panic` aborts the whole call with every mutation discarded (the NEAR
  host provides transactional all-or-nothing commit), so fallible operations
  return `Except String Corgi3D`: an `.error msg` result is a call whose
  state changes are all rolled back.
* `ChaCha20Rng` (external `rand_chacha` crate) is modelled as a parameter
  `prng : List Nat → Nat × Nat`, giving the first two `next_u32` outputs as a
  pure function of the 32-byte seed, exactly the determinism the crate
  guarantees; `env::random_seed()` is the explicit argument `entropy`.
* `Promise::new(seller).transfer(amount)` is modelled by returning the pair
  `(seller, amount)` alongside the new state.
-/

abbrev TokenId := Nat

abbrev AccountId := String

/-- Digest values (the image of `env::sha256`). -/
abbrev Hash := String

/-- A Corgi token record (struct `Corgi` in the source); `U128` amounts are
modelled as `Nat`. -/
structure Corgi where
  id : TokenId
  name : String
  quote : String
  color : String
  background_color : String
  rate : String
  sausage : String
  sender : String
  message : String
  selling : Bool
  selling_price : Nat
deriving Repr, DecidableEq

/-- Functional-map insert (interface of `UnorderedMap::insert`). -/
def mapInsert {α β : Type} [DecidableEq α] (k : α) (v : β) (m : α → Option β) :
    α → Option β :=
  fun x => if x = k then some v else m x

/-- Functional-map remove (interface of `UnorderedMap::remove`). -/
def mapRemove {α β : Type} [DecidableEq α] (k : α) (m : α → Option β) :
    α → Option β :=
  fun x => if x = k then none else m x

/-- Functional-set insert (interface of `UnorderedSet::insert`). -/
def setInsert {α : Type} [DecidableEq α] (k : α) (s : α → Bool) : α → Bool :=
  fun x => if x = k then true else s x

/-- Functional-set remove (interface of `UnorderedSet::remove`). -/
def setRemove {α : Type} [DecidableEq α] (k : α) (s : α → Bool) : α → Bool :=
  fun x => if x = k then false else s x

/-- The empty set (interface of `UnorderedSet::new`). -/
def emptySet {α : Type} : α → Bool := fun _ => false

/-- Contract state (struct `Corgi3D` in the source). -/
structure Corgi3D where
  corgi_to_account : TokenId → Option AccountId
  account_gives_access : Hash → Option (Hash → Bool)
  owner_id : AccountId
  corgis : TokenId → Option Corgi
  account_corgis : Hash → Option (TokenId → Bool)
  next_corgi_id : TokenId

/-- Rust `Corgi3D::new`: fresh state with empty collections (the host-level
`is_valid_account_id` / `state_exists` assertions live outside the model). -/
def Corgi3D.new (owner_id : AccountId) : Corgi3D where
  corgi_to_account := fun _ => none
  account_gives_access := fun _ => none
  owner_id := owner_id
  corgis := fun _ => none
  account_corgis := fun _ => none
  next_corgi_id := 0

/-! ## Trait generator -/

/-- Rust `u64::to_le_bytes`: the eight little-endian bytes of `id`. -/
def u64_le_bytes (id : Nat) : List Nat :=
  (List.range 8).map fun i => id / 256 ^ i % 256

/-- Rust `dst[start..start+src.len()].copy_from_slice(&src)`. -/
def copy_from_slice (dst : List Nat) (start : Nat) (src : List Nat) : List Nat :=
  (List.range dst.length).map fun i =>
    if start ≤ i ∧ i < start + src.length then src.getD (i - start) 0
    else dst.getD i 0

/-- Seed construction of `random_num`: a 32-byte array, zero initialised,
whose bytes `0..l` (`l = min 24 entropy.len()`) come from the entropy and
whose bytes `24..32` are the little-endian token id. -/
def build_seed (entropy : List Nat) (next_id : Nat) : List Nat :=
  let l := min 24 entropy.length
  let seed0 := List.replicate 32 0
  let seed1 := copy_from_slice seed0 0 (entropy.take l)
  copy_from_slice seed1 24 (u64_le_bytes next_id)

/-- Rust `Corgi3D::random_num`: seed ChaCha20 from `build_seed` and draw
`next_u32() % 100` and `next_u32() % 50`. -/
def random_num (prng : List Nat → Nat × Nat) (entropy : List Nat)
    (next_id : Nat) : Nat × Nat :=
  let seed := build_seed entropy next_id
  let r := prng seed
  (r.1 % 100, r.2 % 50)

/-- The tier/value computation of `generate_rate_sausage` applied to the two
draws `(r1, r2)` of `random_num`. -/
def rate_sausage_of_draws (r : Nat × Nat) : String × String :=
  let l := r.1
  let rarity :=
    if r.2 > 30 then "COMMON"
    else if r.2 > 13 then "UNCOMMON"
    else if r.2 > 3 then "RARE"
    else if r.2 > 0 then "VERY RARE"
    else "ULTRA RARE"
  let sausage :=
    if rarity = "ULTRA RARE" then l + 200
    else if rarity = "VERY RARE" then l + 150
    else if rarity = "RARE" then l + 100
    else if rarity = "UNCOMMON" then l + 50
    else if rarity = "COMMON" then l
    else l
  (rarity, toString sausage)

/-- Rust `Corgi3D::generate_rate_sausage`. -/
def generate_rate_sausage (prng : List Nat → Nat × Nat) (entropy : List Nat)
    (next_id : Nat) : String × String :=
  rate_sausage_of_draws (random_num prng entropy next_id)

/-- The (tier, value) pair as a pure function of the 32-byte seed alone. -/
def rate_from_seed (prng : List Nat → Nat × Nat) (seed : List Nat) :
    String × String :=
  let r := prng seed
  rate_sausage_of_draws (r.1 % 100, r.2 % 50)

/-! ## Ownership bookkeeping helpers -/

/-- Rust `Corgi3D::delete_corgi_from_account`: remove the forward-map entry, then
`unwrap` the owner's index set and remove the id from it. -/
def delete_corgi_from_account (sha : AccountId → Hash) (st : Corgi3D)
    (id : TokenId) (account : AccountId) : Except String Corgi3D :=
  let st1 := { st with corgi_to_account := mapRemove id st.corgi_to_account }
  let account_hash := sha account
  match st1.account_corgis account_hash with
  | none => .error "called Option::unwrap() on a None value"
  | some s =>
    .ok { st1 with
          account_corgis :=
            mapInsert account_hash (setRemove id s) st1.account_corgis }

/-- Rust `Corgi3D::save_corgi_to_account`: insert the forward-map entry and add the
id to the account's index set, creating the set when absent. -/
def save_corgi_to_account (sha : AccountId → Hash) (st : Corgi3D)
    (id : TokenId) (account : AccountId) : Corgi3D :=
  let account_hash := sha account
  let st1 := { st with corgi_to_account := mapInsert id account st.corgi_to_account }
  let s := (st1.account_corgis account_hash).getD emptySet
  { st1 with
    account_corgis := mapInsert account_hash (setInsert id s) st1.account_corgis }

/-! ## NEP4 operations -/

/-- Rust `NEP4::check_access` for `Corgi3D`, with the caller identity explicit. -/
def check_access (sha : AccountId → Hash) (st : Corgi3D) (pred : AccountId)
    (account_id : AccountId) : Bool :=
  let account_hash := sha account_id
  if pred = account_id then true
  else
    match st.account_gives_access account_hash with
    | some access => access (sha pred)
    | none => false

/-- Rust `NEP4::get_token_owner` for `Corgi3D`. -/
def get_token_owner (st : Corgi3D) (token_id : TokenId) :
    Except String AccountId :=
  match st.corgi_to_account token_id with
  | some owner_id => .ok owner_id
  | none => .error "No owner of the token ID specified"

/-- Rust `NEP4::grant_access` for `Corgi3D` (infallible), at the level of
the collection interface: the `None` branch yields an independent empty
set. In the source the fresh set is created with the constant storage
prefix `b"new-access-set"` (lib.rs line 294), so at storage level the
fresh sets of different accounts alias each other; `grant_access_storage`
below models that faithfully and is what settles the cross-account frame
claim. This interface-level version is used only by claims that read the
current contents of a single stored delegation entry. -/
def grant_access (sha : AccountId → Hash) (st : Corgi3D)
    (pred escrow_account_id : AccountId) : Corgi3D :=
  let escrow_hash := sha escrow_account_id
  let predecessor_hash := sha pred
  let access_set := (st.account_gives_access predecessor_hash).getD emptySet
  { st with
    account_gives_access :=
      mapInsert predecessor_hash (setInsert escrow_hash access_set)
        st.account_gives_access }

/-- Rust `NEP4::revoke_access` for `Corgi3D`. -/
def revoke_access (sha : AccountId → Hash) (st : Corgi3D)
    (pred escrow_account_id : AccountId) : Except String Corgi3D :=
  let predecessor_hash := sha pred
  match st.account_gives_access predecessor_hash with
  | none => .error "Access does not exist."
  | some existing_set =>
    let escrow_hash := sha escrow_account_id
    if existing_set escrow_hash then
      .ok { st with
            account_gives_access :=
              mapInsert predecessor_hash (setRemove escrow_hash existing_set)
                st.account_gives_access }
    else .error "Did not find access for escrow ID."

/-- Rust `NEP4::transfer` for `Corgi3D`. -/
def transfer (sha : AccountId → Hash) (st : Corgi3D)
    (pred new_owner_id : AccountId) (token_id : TokenId) :
    Except String Corgi3D :=
  match st.corgi_to_account token_id with
  | none => .error "No owner of the token ID specified"
  | some token_owner =>
    if pred ≠ token_owner then
      .error "Attempt to call transfer on tokens belonging to another account."
    else
      match delete_corgi_from_account sha st token_id token_owner with
      | .error e => .error e
      | .ok st1 => .ok (save_corgi_to_account sha st1 token_id new_owner_id)

/-- Rust `NEP4::transfer_from` for `Corgi3D`. -/
def transfer_from (sha : AccountId → Hash) (st : Corgi3D)
    (pred owner_id new_owner_id : AccountId) (token_id : TokenId) :
    Except String Corgi3D :=
  match st.corgi_to_account token_id with
  | none => .error "No owner of the token ID specified"
  | some token_owner =>
    if owner_id ≠ token_owner then
      .error "Attempt to transfer a token from a different owner."
    else if ¬ check_access sha st pred token_owner then
      .error "Attempt to transfer a token with no access."
    else
      match delete_corgi_from_account sha st token_id token_owner with
      | .error e => .error e
      | .ok st1 => .ok (save_corgi_to_account sha st1 token_id new_owner_id)

/-! ## Non-NEP4 operations -/

/-- Rust `Corgi3D::create_corgi` (deposit of exactly 3 NEAR required). -/
def create_corgi (sha : AccountId → Hash) (prng : List Nat → Nat × Nat)
    (entropy : List Nat) (st : Corgi3D) (pred : AccountId)
    (attached_deposit : Nat) (name color background_color quote : String) :
    Except String (Corgi3D × String × TokenId) :=
  if attached_deposit ≠ 3000000000000000000000000 then
    .error "Each new corgi cost 3 NEAR"
  else
    let rs := generate_rate_sausage prng entropy st.next_corgi_id
    let id := st.next_corgi_id
    let corgi : Corgi :=
      { id := id, name := name, color := color,
        background_color := background_color, quote := quote,
        rate := rs.1, sausage := rs.2, selling := false, selling_price := 0,
        message := "", sender := "" }
    let st1 := { st with
                 next_corgi_id := st.next_corgi_id + 1,
                 corgis := mapInsert id corgi st.corgis }
    .ok (save_corgi_to_account sha st1 id pred, name, id)

/-- Rust `Corgi3D::delete_corgi`. -/
def delete_corgi (sha : AccountId → Hash) (st : Corgi3D) (pred : AccountId)
    (id : TokenId) : Except String Corgi3D :=
  match st.corgis id with
  | none => .error "Corgi not found"
  | some _ =>
    match st.corgi_to_account id with
    | none => .error "called Option::unwrap() on a None value"
    | some account =>
      if account = pred || check_access sha st pred account then
        match delete_corgi_from_account sha st id account with
        | .error e => .error e
        | .ok st1 => .ok { st1 with corgis := mapRemove id st1.corgis }
      else .error "Don\x27t have permission to delete corgi"

/-- Rust `Corgi3D::sell_corgi`. -/
def sell_corgi (sha : AccountId → Hash) (st : Corgi3D) (pred : AccountId)
    (id : TokenId) (price : Nat) : Except String Corgi3D :=
  match st.corgis id with
  | none => .error "Corgi not found"
  | some corgi =>
    match st.corgi_to_account id with
    | none => .error "called Option::unwrap() on a None value"
    | some account =>
      if account = pred || check_access sha st pred account then
        .ok { st with
              corgis :=
                mapInsert id
                  { corgi with selling := true, selling_price := price }
                  st.corgis }
      else .error "Don\x27t have permission to sell corgi"

/-- Rust `Corgi3D::buy_corgi`; the returned pair `(seller, amount)` models the
`Promise::new(seller).transfer(attached_deposit)` value transfer. -/
def buy_corgi (sha : AccountId → Hash) (st : Corgi3D) (pred : AccountId)
    (attached_deposit : Nat) (id : TokenId) :
    Except String (Corgi3D × AccountId × Nat) :=
  match st.corgis id with
  | none => .error "Corgi not found"
  | some corgi =>
    match st.corgi_to_account id with
    | none => .error "called Option::unwrap() on a None value"
    | some seller =>
      if attached_deposit < corgi.selling_price then
        .error "Don\x27t pay enough money to buy corgi"
      else
        let st1 := { st with
                     corgis := mapInsert id { corgi with selling := false } st.corgis }
        match delete_corgi_from_account sha st1 id seller with
        | .error e => .error e
        | .ok st2 => .ok (save_corgi_to_account sha st2 id pred, seller, attached_deposit)

/-! ## Registry/index consistency -/

/-- Forward-map / reverse-index consistency together with freshness of the
id counter:
1. every id the forward map assigns to `a` lies in the index set stored at
   `sha a` (in particular that set exists);
2. every id in the index set stored at a digest `h` is assigned by the
   forward map to an account whose digest is `h`;
3. ids at or above `next_corgi_id` are unassigned. -/
def RegistryInv (sha : AccountId → Hash) (st : Corgi3D) : Prop :=
  (∀ id a, st.corgi_to_account id = some a →
      ∃ s, st.account_corgis (sha a) = some s ∧ s id = true) ∧
  (∀ id h s, st.account_corgis h = some s → s id = true →
      ∃ a, st.corgi_to_account id = some a ∧ sha a = h) ∧
  (∀ id, st.next_corgi_id ≤ id → st.corgi_to_account id = none)

/-- States reachable from a freshly initialised contract by any sequence of
successful public operations (a failed operation aborts and leaves the state
unchanged, so it produces no new state). -/
inductive Reachable (sha : AccountId → Hash) : Corgi3D → Prop where
  | init (owner : AccountId) : Reachable sha (Corgi3D.new owner)
  | step_create {st : Corgi3D} (prng : List Nat → Nat × Nat)
      (entropy : List Nat) (pred : AccountId) (dep : Nat)
      (n c b q : String) (out : Corgi3D × String × TokenId) :
      Reachable sha st →
      create_corgi sha prng entropy st pred dep n c b q = .ok out →
      Reachable sha out.1
  | step_transfer {st : Corgi3D} (pred new_owner : AccountId) (id : TokenId)
      (st' : Corgi3D) :
      Reachable sha st → transfer sha st pred new_owner id = .ok st' →
      Reachable sha st'
  | step_transfer_from {st : Corgi3D} (pred owner new_owner : AccountId)
      (id : TokenId) (st' : Corgi3D) :
      Reachable sha st →
      transfer_from sha st pred owner new_owner id = .ok st' →
      Reachable sha st'
  | step_buy {st : Corgi3D} (pred : AccountId) (dep : Nat) (id : TokenId)
      (out : Corgi3D × AccountId × Nat) :
      Reachable sha st → buy_corgi sha st pred dep id = .ok out →
      Reachable sha out.1
  | step_delete {st : Corgi3D} (pred : AccountId) (id : TokenId)
      (st' : Corgi3D) :
      Reachable sha st → delete_corgi sha st pred id = .ok st' →
      Reachable sha st'
  | step_grant {st : Corgi3D} (pred escrow : AccountId) :
      Reachable sha st → Reachable sha (grant_access sha st pred escrow)
  | step_revoke {st : Corgi3D} (pred escrow : AccountId) (st' : Corgi3D) :
      Reachable sha st → revoke_access sha st pred escrow = .ok st' →
      Reachable sha st'
  | step_sell {st : Corgi3D} (pred : AccountId) (id : TokenId) (price : Nat)
      (st' : Corgi3D) :
      Reachable sha st → sell_corgi sha st pred id price = .ok st' →
      Reachable sha st'

/-! ## A small concrete state used in the concrete instances below -/

/-- A concrete item record. -/
def demoCorgi (s : Bool) (price : Nat) : Corgi where
  id := 0
  name := "rex"
  quote := "q"
  color := "red"
  background_color := "blue"
  rate := "COMMON"
  sausage := "7"
  sender := ""
  message := ""
  selling := s
  selling_price := price

/-- A concrete contract state: `alice` owns token 0 (listed or not according
to the arguments) and has granted escrow access to `bob`; digests are taken
with the identity digest function `fun a => a`. -/
def demoState (s : Bool) (price : Nat) : Corgi3D where
  corgi_to_account := fun i => if i = 0 then some "alice" else none
  account_gives_access := fun h =>
    if h = "alice" then some (fun x => x == "bob") else none
  owner_id := "alice"
  corgis := fun i => if i = 0 then some (demoCorgi s price) else none
  account_corgis := fun h =>
    if h = "alice" then some (fun i => i == 0) else none
  next_corgi_id := 1

/-! ## Storage-level model of the delegation sets

The delegate sets live inside `account_gives_access`, so what the map
stores per account is only the set's *handle* (its storage-key base and
its length); `UnorderedSet::contains`/`insert` are raw reads/writes of the
backing trie under that key base (`base ++ "i" ++ element` for the
element-to-index lookup, `base ++ "e" ++ le(index)` for the element
vector). The model below keeps those two key families as tables keyed by
`(base, element)` and `(base, index)`. Because `grant_access` creates
every fresh set with the constant base `"new-access-set"`, fresh sets of
different accounts share this backing storage. The outer map's own keys
are per-account digests under its own unique prefix, so it remains a
plain map. -/

/-- The stored handle of a `near_sdk::collections::UnorderedSet`: its
storage-key base and its element count. -/
structure USetHandle where
  pfx : String
  len : Nat
deriving Repr, DecidableEq

/-- Rust `UnorderedSet::new(id)`: a fresh handle over key base `id` with
length 0; no storage is written. -/
def uset_new (p : String) : USetHandle := ⟨p, 0⟩

/-- Rust `UnorderedSet::contains`: a raw storage read of the
element-to-index key — the handle's `len` is not consulted. -/
def uset_contains (ix : String → Hash → Option Nat) (h : USetHandle)
    (e : Hash) : Bool :=
  (ix h.pfx e).isSome

/-- Rust `UnorderedSet::insert`: if the element-to-index key already exists
nothing changes; otherwise the element is recorded under index `len` — a
raw write that overwrites whatever another handle with the same key base
stored at that slot — and the handle's length grows. Returns the updated
index table, element table and handle. -/
def uset_insert (ix : String → Hash → Option Nat)
    (el : String → Nat → Option Hash) (h : USetHandle) (e : Hash) :
    (String → Hash → Option Nat) × (String → Nat → Option Hash) ×
      USetHandle :=
  match ix h.pfx e with
  | some _ => (ix, el, h)
  | none =>
    (fun p x => if p = h.pfx ∧ x = e then some h.len else ix p x,
     fun p n => if p = h.pfx ∧ n = h.len then some e else el p n,
     { h with len := h.len + 1 })

/-- The delegation subsystem at storage level: the `account_gives_access`
map of handles together with the raw trie regions the handles point
into. -/
structure AccessState where
  handles : Hash → Option USetHandle
  ix : String → Hash → Option Nat
  el : String → Nat → Option Hash

/-- The delegation storage of a freshly initialised contract. -/
def accessStateEmpty : AccessState where
  handles := fun _ => none
  ix := fun _ _ => none
  el := fun _ _ => none

/-- Rust `NEP4::grant_access` composed with the storage semantics of
`UnorderedSet`: the `None` branch creates the fresh set with the constant
key base `"new-access-set"` exactly as lib.rs line 294 does. -/
def grant_access_storage (sha : AccountId → Hash) (st : AccessState)
    (pred escrow_account_id : AccountId) : AccessState :=
  let escrow_hash := sha escrow_account_id
  let predecessor_hash := sha pred
  let access_set :=
    match st.handles predecessor_hash with
    | some existing_set => existing_set
    | none => uset_new "new-access-set"
  let r := uset_insert st.ix st.el access_set escrow_hash
  { handles := mapInsert predecessor_hash r.2.2 st.handles,
    ix := r.1, el := r.2.1 }

/-- Rust `NEP4::check_access` composed with the storage semantics of
`UnorderedSet::contains` (a raw read of the element-to-index key that
ignores the handle's length). -/
def check_access_storage (sha : AccountId → Hash) (st : AccessState)
    (pred : AccountId) (account_id : AccountId) : Bool :=
  let account_hash := sha account_id
  if pred = account_id then true
  else
    match st.handles account_hash with
    | some access => uset_contains st.ix access (sha pred)
    | none => false

/-! ## Pointwise lemmas for the functional collections -/

theorem mapInsert_self {α β : Type} [DecidableEq α] (k : α) (v : β)
    (m : α → Option β) : mapInsert k v m k = some v := by
  simp [mapInsert]

theorem mapInsert_ne {α β : Type} [DecidableEq α] {x k : α} (v : β)
    (m : α → Option β) (h : x ≠ k) : mapInsert k v m x = m x := by
  simp [mapInsert, h]

theorem mapRemove_self {α β : Type} [DecidableEq α] (k : α)
    (m : α → Option β) : mapRemove k m k = none := by
  simp [mapRemove]

theorem mapRemove_ne {α β : Type} [DecidableEq α] {x k : α}
    (m : α → Option β) (h : x ≠ k) : mapRemove k m x = m x := by
  simp [mapRemove, h]

theorem setInsert_self {α : Type} [DecidableEq α] (k : α) (s : α → Bool) :
    setInsert k s k = true := by
  simp [setInsert]

theorem setInsert_ne {α : Type} [DecidableEq α] {x k : α} (s : α → Bool)
    (h : x ≠ k) : setInsert k s x = s x := by
  simp [setInsert, h]

theorem setRemove_self {α : Type} [DecidableEq α] (k : α) (s : α → Bool) :
    setRemove k s k = false := by
  simp [setRemove]

theorem setRemove_ne {α : Type} [DecidableEq α] {x k : α} (s : α → Bool)
    (h : x ≠ k) : setRemove k s x = s x := by
  simp [setRemove, h]

/-! ## Field-level characterisations of the bookkeeping helpers -/

theorem save_fields (sha : AccountId → Hash) (st : Corgi3D) (id : TokenId)
    (account : AccountId) :
    (save_corgi_to_account sha st id account).corgi_to_account
        = mapInsert id account st.corgi_to_account ∧
    (save_corgi_to_account sha st id account).account_corgis
        = mapInsert (sha account)
            (setInsert id ((st.account_corgis (sha account)).getD emptySet))
            st.account_corgis ∧
    (save_corgi_to_account sha st id account).next_corgi_id = st.next_corgi_id ∧
    (save_corgi_to_account sha st id account).corgis = st.corgis ∧
    (save_corgi_to_account sha st id account).account_gives_access
        = st.account_gives_access ∧
    (save_corgi_to_account sha st id account).owner_id = st.owner_id :=
  ⟨rfl, rfl, rfl, rfl, rfl, rfl⟩

theorem delete_fields {sha : AccountId → Hash} {st : Corgi3D} {id : TokenId}
    {account : AccountId} {st' : Corgi3D}
    (h : delete_corgi_from_account sha st id account = .ok st') :
    ∃ s, st.account_corgis (sha account) = some s ∧
      st'.corgi_to_account = mapRemove id st.corgi_to_account ∧
      st'.account_corgis
          = mapInsert (sha account) (setRemove id s) st.account_corgis ∧
      st'.next_corgi_id = st.next_corgi_id ∧
      st'.corgis = st.corgis ∧
      st'.account_gives_access = st.account_gives_access ∧
      st'.owner_id = st.owner_id := by
  dsimp only [delete_corgi_from_account] at h
  cases hs : st.account_corgis (sha account) with
  | none => rw [hs] at h; simp at h
  | some s =>
    rw [hs] at h
    simp only [Except.ok.injEq] at h
    subst h
    exact ⟨s, rfl, rfl, rfl, rfl, rfl, rfl, rfl⟩

theorem delete_ok_of_some {sha : AccountId → Hash} {st : Corgi3D}
    (id : TokenId) {account : AccountId} {s : TokenId → Bool}
    (hs : st.account_corgis (sha account) = some s) :
    ∃ st', delete_corgi_from_account sha st id account = .ok st' := by
  unfold delete_corgi_from_account
  simp only [hs]
  exact ⟨_, rfl⟩

/-- Deleting a token from its current owner's bucket and saving it to any
account preserves the registry/index consistency invariant. -/
theorem registryInv_move {sha : AccountId → Hash} {st : Corgi3D}
    {id : TokenId} {owner : AccountId} (new_owner : AccountId) {st₁ : Corgi3D}
    (hInv : RegistryInv sha st)
    (hfwd : st.corgi_to_account id = some owner)
    (hdel : delete_corgi_from_account sha st id owner = .ok st₁) :
    RegistryInv sha (save_corgi_to_account sha st₁ id new_owner) := by
  obtain ⟨inv1, inv2, inv3⟩ := hInv
  obtain ⟨s, hs, hF, hA, hN, -, -, -⟩ := delete_fields hdel
  obtain ⟨sF, sA, sN, -, -, -⟩ := save_fields sha st₁ id new_owner
  refine ⟨?_, ?_, ?_⟩
  · intro id' a' hmap
    rw [sF, hF] at hmap
    rw [sA, hA]
    by_cases hid : id' = id
    · subst hid
      rw [mapInsert_self] at hmap
      injection hmap with e
      subst e
      exact ⟨_, mapInsert_self _ _ _, setInsert_self _ _⟩
    · rw [mapInsert_ne _ _ hid, mapRemove_ne _ hid] at hmap
      obtain ⟨s₀, hs₀, hmem⟩ := inv1 id' a' hmap
      by_cases hnew : sha a' = sha new_owner
      · rw [hnew, mapInsert_self]
        refine ⟨_, rfl, ?_⟩
        rw [setInsert_ne _ hid]
        by_cases hown : sha new_owner = sha owner
        · rw [hown, mapInsert_self, Option.getD_some, setRemove_ne _ hid]
          have hAo : st.account_corgis (sha owner) = some s₀ := by
            rw [← hown, ← hnew]; exact hs₀
          rw [hs] at hAo
          injection hAo with e
          rw [e]; exact hmem
        · rw [mapInsert_ne _ _ hown, ← hnew, hs₀, Option.getD_some]
          exact hmem
      · rw [mapInsert_ne _ _ hnew]
        by_cases hown : sha a' = sha owner
        · rw [hown, mapInsert_self]
          refine ⟨_, rfl, ?_⟩
          rw [setRemove_ne _ hid]
          have hAo : st.account_corgis (sha owner) = some s₀ := hown ▸ hs₀
          rw [hs] at hAo
          injection hAo with e
          rw [e]; exact hmem
        · rw [mapInsert_ne _ _ hown]
          exact ⟨s₀, hs₀, hmem⟩
  · intro id' hh s₂ hset hmem
    rw [sA, hA] at hset
    rw [sF, hF]
    by_cases hnew : hh = sha new_owner
    · subst hnew
      rw [mapInsert_self] at hset
      injection hset with e
      subst e
      by_cases hid : id' = id
      · subst hid
        exact ⟨new_owner, mapInsert_self _ _ _, rfl⟩
      · rw [setInsert_ne _ hid] at hmem
        by_cases hown : sha new_owner = sha owner
        · rw [hown, mapInsert_self, Option.getD_some, setRemove_ne _ hid]
            at hmem
          obtain ⟨a, ha, hsha⟩ := inv2 id' (sha owner) s hs hmem
          refine ⟨a, ?_, by rw [hsha, ← hown]⟩
          rw [mapInsert_ne _ _ hid, mapRemove_ne _ hid]
          exact ha
        · rw [mapInsert_ne _ _ hown] at hmem
          cases hAnew : st.account_corgis (sha new_owner) with
          | none =>
            rw [hAnew] at hmem
            simp [emptySet] at hmem
          | some t =>
            rw [hAnew, Option.getD_some] at hmem
            obtain ⟨a, ha, hsha⟩ := inv2 id' (sha new_owner) t hAnew hmem
            refine ⟨a, ?_, hsha⟩
            rw [mapInsert_ne _ _ hid, mapRemove_ne _ hid]
            exact ha
    · rw [mapInsert_ne _ _ hnew] at hset
      by_cases hown : hh = sha owner
      · rw [hown, mapInsert_self] at hset
        injection hset with e
        subst e
        by_cases hid : id' = id
        · subst hid
          rw [setRemove_self] at hmem
          cases hmem
        · rw [setRemove_ne _ hid] at hmem
          obtain ⟨a, ha, hsha⟩ := inv2 id' (sha owner) s hs hmem
          refine ⟨a, ?_, by rw [hsha, hown]⟩
          rw [mapInsert_ne _ _ hid, mapRemove_ne _ hid]
          exact ha
      · rw [mapInsert_ne _ _ hown] at hset
        obtain ⟨a, ha, hsha⟩ := inv2 id' hh s₂ hset hmem
        by_cases hid : id' = id
        · subst hid
          rw [hfwd] at ha
          injection ha with e
          subst e
          exact absurd hsha.symm hown
        · refine ⟨a, ?_, hsha⟩
          rw [mapInsert_ne _ _ hid, mapRemove_ne _ hid]
          exact ha
  · intro id' hle
    rw [sN, hN] at hle
    rw [sF, hF]
    have hid : id' ≠ id := by
      intro e
      subst e
      rw [inv3 id' hle] at hfwd
      cases hfwd
    rw [mapInsert_ne _ _ hid, mapRemove_ne _ hid]
    exact inv3 id' hle

/-! ## Inversion lemmas for the fallible operations -/

theorem transfer_ok_elim {sha : AccountId → Hash} {st : Corgi3D}
    {pred new_owner : AccountId} {token_id : TokenId} {st' : Corgi3D}
    (h : transfer sha st pred new_owner token_id = .ok st') :
    ∃ owner st₁, st.corgi_to_account token_id = some owner ∧ pred = owner ∧
      delete_corgi_from_account sha st token_id owner = .ok st₁ ∧
      st' = save_corgi_to_account sha st₁ token_id new_owner := by
  unfold transfer at h
  cases hf : st.corgi_to_account token_id with
  | none => rw [hf] at h; simp at h
  | some owner =>
    rw [hf] at h
    dsimp only [] at h
    by_cases hp : pred = owner
    · rw [if_neg (not_not_intro hp)] at h
      cases hd : delete_corgi_from_account sha st token_id owner with
      | error e => rw [hd] at h; simp at h
      | ok st₁ =>
        rw [hd] at h
        simp only [Except.ok.injEq] at h
        exact ⟨owner, st₁, rfl, hp, hd, h.symm⟩
    · rw [if_pos hp] at h; simp at h

theorem transfer_from_ok_elim {sha : AccountId → Hash} {st : Corgi3D}
    {pred owner_id new_owner : AccountId} {token_id : TokenId} {st' : Corgi3D}
    (h : transfer_from sha st pred owner_id new_owner token_id = .ok st') :
    ∃ owner st₁, st.corgi_to_account token_id = some owner ∧
      owner_id = owner ∧ check_access sha st pred owner = true ∧
      delete_corgi_from_account sha st token_id owner = .ok st₁ ∧
      st' = save_corgi_to_account sha st₁ token_id new_owner := by
  unfold transfer_from at h
  cases hf : st.corgi_to_account token_id with
  | none => rw [hf] at h; simp at h
  | some owner =>
    rw [hf] at h
    dsimp only [] at h
    by_cases hp : owner_id = owner
    · rw [if_neg (not_not_intro hp)] at h
      by_cases hc : check_access sha st pred owner = true
      · rw [if_neg (not_not_intro hc)] at h
        cases hd : delete_corgi_from_account sha st token_id owner with
        | error e => rw [hd] at h; simp at h
        | ok st₁ =>
          rw [hd] at h
          simp only [Except.ok.injEq] at h
          exact ⟨owner, st₁, rfl, hp, hc, hd, h.symm⟩
      · rw [if_pos hc] at h; simp at h
    · rw [if_pos hp] at h; simp at h

theorem buy_ok_elim {sha : AccountId → Hash} {st : Corgi3D} {pred : AccountId}
    {dep : Nat} {id : TokenId} {out : Corgi3D × AccountId × Nat}
    (h : buy_corgi sha st pred dep id = .ok out) :
    ∃ corgi seller st₁,
      st.corgis id = some corgi ∧ st.corgi_to_account id = some seller ∧
      ¬ dep < corgi.selling_price ∧
      delete_corgi_from_account sha
        { st with corgis := mapInsert id { corgi with selling := false } st.corgis }
        id seller = .ok st₁ ∧
      out = (save_corgi_to_account sha st₁ id pred, seller, dep) := by
  unfold buy_corgi at h
  cases hc : st.corgis id with
  | none => rw [hc] at h; simp at h
  | some corgi =>
    rw [hc] at h
    dsimp only [] at h
    cases hf : st.corgi_to_account id with
    | none => rw [hf] at h; simp at h
    | some seller =>
      rw [hf] at h
      dsimp only [] at h
      by_cases hdep : dep < corgi.selling_price
      · rw [if_pos hdep] at h; simp at h
      · rw [if_neg hdep] at h
        cases hd : delete_corgi_from_account sha
            { st with corgis := mapInsert id { corgi with selling := false } st.corgis }
            id seller with
        | error e => rw [hd] at h; simp at h
        | ok st₁ =>
          rw [hd] at h
          simp only [Except.ok.injEq] at h
          exact ⟨corgi, seller, st₁, rfl, rfl, hdep, hd, h.symm⟩

theorem create_ok_elim {sha : AccountId → Hash} {prng : List Nat → Nat × Nat}
    {entropy : List Nat} {st : Corgi3D} {pred : AccountId} {dep : Nat}
    {n c b q : String} {out : Corgi3D × String × TokenId}
    (h : create_corgi sha prng entropy st pred dep n c b q = .ok out) :
    dep = 3000000000000000000000000 ∧
    ∃ corgi : Corgi,
      out = (save_corgi_to_account sha
               { st with next_corgi_id := st.next_corgi_id + 1,
                         corgis := mapInsert st.next_corgi_id corgi st.corgis }
               st.next_corgi_id pred, n, st.next_corgi_id) := by
  unfold create_corgi at h
  by_cases hd : dep = 3000000000000000000000000
  · rw [if_neg (not_not_intro hd)] at h
    dsimp only [] at h
    simp only [Except.ok.injEq] at h
    exact ⟨hd, _, h.symm⟩
  · rw [if_pos hd] at h; simp at h

theorem delete_corgi_ok_elim {sha : AccountId → Hash} {st : Corgi3D}
    {pred : AccountId} {id : TokenId} {st' : Corgi3D}
    (h : delete_corgi sha st pred id = .ok st') :
    ∃ corgi account st₁,
      st.corgis id = some corgi ∧ st.corgi_to_account id = some account ∧
      (account = pred ∨ check_access sha st pred account = true) ∧
      delete_corgi_from_account sha st id account = .ok st₁ ∧
      st' = { st₁ with corgis := mapRemove id st₁.corgis } := by
  unfold delete_corgi at h
  cases hc : st.corgis id with
  | none => rw [hc] at h; simp at h
  | some corgi =>
    rw [hc] at h
    dsimp only [] at h
    cases hf : st.corgi_to_account id with
    | none => rw [hf] at h; simp at h
    | some account =>
      rw [hf] at h
      dsimp only [] at h
      by_cases hperm : (account = pred || check_access sha st pred account) = true
      · rw [if_pos hperm] at h
        cases hd : delete_corgi_from_account sha st id account with
        | error e => rw [hd] at h; simp at h
        | ok st₁ =>
          rw [hd] at h
          simp only [Except.ok.injEq] at h
          refine ⟨corgi, account, st₁, rfl, rfl, ?_, hd, h.symm⟩
          simpa [decide_eq_true_eq] using hperm
      · rw [if_neg hperm] at h; simp at h

theorem revoke_ok_elim {sha : AccountId → Hash} {st : Corgi3D}
    {pred escrow : AccountId} {st' : Corgi3D}
    (h : revoke_access sha st pred escrow = .ok st') :
    ∃ existing_set, st.account_gives_access (sha pred) = some existing_set ∧
      existing_set (sha escrow) = true ∧
      st' = { st with
              account_gives_access :=
                mapInsert (sha pred) (setRemove (sha escrow) existing_set)
                  st.account_gives_access } := by
  unfold revoke_access at h
  dsimp only [] at h
  cases ha : st.account_gives_access (sha pred) with
  | none => rw [ha] at h; simp at h
  | some existing_set =>
    rw [ha] at h
    dsimp only [] at h
    by_cases he : existing_set (sha escrow) = true
    · rw [if_pos he] at h
      simp only [Except.ok.injEq] at h
      exact ⟨existing_set, rfl, he, h.symm⟩
    · rw [if_neg he] at h; simp at h

theorem sell_ok_elim {sha : AccountId → Hash} {st : Corgi3D}
    {pred : AccountId} {id : TokenId} {price : Nat} {st' : Corgi3D}
    (h : sell_corgi sha st pred id price = .ok st') :
    ∃ corgi account, st.corgis id = some corgi ∧
      st.corgi_to_account id = some account ∧
      st' = { st with
              corgis :=
                mapInsert id { corgi with selling := true, selling_price := price }
                  st.corgis } := by
  unfold sell_corgi at h
  cases hc : st.corgis id with
  | none => rw [hc] at h; simp at h
  | some corgi =>
    rw [hc] at h
    dsimp only [] at h
    cases hf : st.corgi_to_account id with
    | none => rw [hf] at h; simp at h
    | some account =>
      rw [hf] at h
      dsimp only [] at h
      by_cases hperm : (account = pred || check_access sha st pred account) = true
      · rw [if_pos hperm] at h
        simp only [Except.ok.injEq] at h
        exact ⟨corgi, account, rfl, rfl, h.symm⟩
      · rw [if_neg hperm] at h; simp at h

/-! ## Characterisation of check_access -/

theorem check_access_iff (sha : AccountId → Hash) (st : Corgi3D)
    (pred account : AccountId) :
    check_access sha st pred account = true ↔
      pred = account ∨
        ∃ s, st.account_gives_access (sha account) = some s ∧
          s (sha pred) = true := by
  unfold check_access
  by_cases hp : pred = account
  · simp [hp]
  · rw [if_neg hp]
    cases ha : st.account_gives_access (sha account) with
    | none => simp [hp, ha]
    | some access => simp [hp, ha]

theorem check_access_self (sha : AccountId → Hash) (st : Corgi3D)
    (account : AccountId) : check_access sha st account account = true := by
  unfold check_access
  simp

/-! ## Structure of the 32-byte seed -/

theorem copy_from_slice_length (dst : List Nat) (s : Nat) (src : List Nat) :
    (copy_from_slice dst s src).length = dst.length := by
  simp [copy_from_slice]

theorem copy_from_slice_getD {dst : List Nat} {i : Nat} (s : Nat)
    (src : List Nat) (h : i < dst.length) :
    (copy_from_slice dst s src).getD i 0
      = if s ≤ i ∧ i < s + src.length then src.getD (i - s) 0
        else dst.getD i 0 := by
  unfold copy_from_slice
  rw [List.getD_eq_getElem?_getD, List.getElem?_map, List.getElem?_range h]
  simp only [Option.map_some', Option.getD_some]

theorem build_seed_length (entropy : List Nat) (id : Nat) :
    (build_seed entropy id).length = 32 := by
  simp only [build_seed]
  rw [copy_from_slice_length, copy_from_slice_length, List.length_replicate]

theorem build_seed_getD_lo (entropy : List Nat) (id : Nat) {i : Nat}
    (h : i < 24) :
    (build_seed entropy id).getD i 0
      = if i < min 24 entropy.length then entropy.getD i 0 else 0 := by
  simp only [build_seed]
  rw [copy_from_slice_getD 24 _
    (by rw [copy_from_slice_length, List.length_replicate]; omega)]
  rw [if_neg (by omega)]
  rw [copy_from_slice_getD 0 _ (by rw [List.length_replicate]; omega)]
  rw [List.length_take]
  have hl : min (min 24 entropy.length) entropy.length
      = min 24 entropy.length := by omega
  rw [hl]
  by_cases hc : i < min 24 entropy.length
  · rw [if_pos ⟨Nat.zero_le i, by omega⟩, if_pos hc]
    simp only [Nat.sub_zero]
    rw [List.getD_eq_getElem?_getD, List.getD_eq_getElem?_getD,
      List.getElem?_take, if_pos hc]
  · rw [if_neg (by omega), if_neg hc]
    rw [List.getD_eq_getElem?_getD, List.getElem?_replicate,
      if_pos (by omega : i < 32)]
    rfl

theorem build_seed_getD_hi (entropy : List Nat) (id : Nat) {i : Nat}
    (h24 : 24 ≤ i) (h32 : i < 32) :
    (build_seed entropy id).getD i 0 = id / 256 ^ (i - 24) % 256 := by
  simp only [build_seed]
  rw [copy_from_slice_getD 24 _
    (by rw [copy_from_slice_length, List.length_replicate]; omega)]
  have hlen : (u64_le_bytes id).length = 8 := by simp [u64_le_bytes]
  rw [hlen, if_pos ⟨h24, by omega⟩]
  unfold u64_le_bytes
  rw [List.getD_eq_getElem?_getD, List.getElem?_map,
    List.getElem?_range (by omega : i - 24 < 8)]
  simp only [Option.map_some', Option.getD_some]

/-! ## Preservation of the registry invariant by every public operation -/

theorem registryInv_new (owner : AccountId) (sha : AccountId → Hash) :
    RegistryInv sha (Corgi3D.new owner) := by
  refine ⟨?_, ?_, ?_⟩
  · intro id a h; simp [Corgi3D.new] at h
  · intro id hh s hset; simp [Corgi3D.new] at hset
  · intro id _; rfl

/-- The registry invariant only reads three fields of the state. -/
theorem registryInv_congr {sha : AccountId → Hash} (st : Corgi3D)
    {st' : Corgi3D}
    (hF : st'.corgi_to_account = st.corgi_to_account)
    (hA : st'.account_corgis = st.account_corgis)
    (hN : st'.next_corgi_id = st.next_corgi_id)
    (hInv : RegistryInv sha st) : RegistryInv sha st' := by
  obtain ⟨inv1, inv2, inv3⟩ := hInv
  exact ⟨by rw [hF, hA]; exact inv1, by rw [hF, hA]; exact inv2,
    by rw [hF, hN]; exact inv3⟩

theorem registryInv_transfer {sha : AccountId → Hash} {st : Corgi3D}
    {pred new_owner : AccountId} {token_id : TokenId} {st' : Corgi3D}
    (hInv : RegistryInv sha st)
    (h : transfer sha st pred new_owner token_id = .ok st') :
    RegistryInv sha st' := by
  obtain ⟨owner, st₁, hf, -, hd, hst⟩ := transfer_ok_elim h
  subst hst
  exact registryInv_move new_owner hInv hf hd

theorem registryInv_transfer_from {sha : AccountId → Hash} {st : Corgi3D}
    {pred owner_id new_owner : AccountId} {token_id : TokenId} {st' : Corgi3D}
    (hInv : RegistryInv sha st)
    (h : transfer_from sha st pred owner_id new_owner token_id = .ok st') :
    RegistryInv sha st' := by
  obtain ⟨owner, st₁, hf, -, -, hd, hst⟩ := transfer_from_ok_elim h
  subst hst
  exact registryInv_move new_owner hInv hf hd

theorem registryInv_buy {sha : AccountId → Hash} {st : Corgi3D}
    {pred : AccountId} {dep : Nat} {id : TokenId}
    {out : Corgi3D × AccountId × Nat}
    (hInv : RegistryInv sha st) (h : buy_corgi sha st pred dep id = .ok out) :
    RegistryInv sha out.1 := by
  obtain ⟨corgi, seller, st₁, -, hf, -, hd, hout⟩ := buy_ok_elim h
  subst hout
  have hInv' : RegistryInv sha
      { st with corgis := mapInsert id { corgi with selling := false } st.corgis } :=
    registryInv_congr st rfl rfl rfl hInv
  exact registryInv_move pred hInv' hf hd

/-- Saving a fresh id (equal to the current counter) into any account
preserves the invariant, for a state whose relevant fields agree with `st`
except that the counter has been incremented. -/
theorem registryInv_fresh_save {sha : AccountId → Hash} (st : Corgi3D)
    {stm : Corgi3D} {id : TokenId} (new_owner : AccountId)
    (hF : stm.corgi_to_account = st.corgi_to_account)
    (hA : stm.account_corgis = st.account_corgis)
    (hN : stm.next_corgi_id = st.next_corgi_id + 1)
    (hid : id = st.next_corgi_id)
    (hInv : RegistryInv sha st) :
    RegistryInv sha (save_corgi_to_account sha stm id new_owner) := by
  subst hid
  obtain ⟨inv1, inv2, inv3⟩ := hInv
  obtain ⟨sF, sA, sN, -, -, -⟩ := save_fields sha stm st.next_corgi_id new_owner
  have hfresh : st.corgi_to_account st.next_corgi_id = none :=
    inv3 st.next_corgi_id le_rfl
  refine ⟨?_, ?_, ?_⟩
  · intro id' a' hmap
    rw [sF, hF] at hmap
    rw [sA, hA]
    by_cases hi : id' = st.next_corgi_id
    · subst hi
      rw [mapInsert_self] at hmap
      injection hmap with e
      subst e
      exact ⟨_, mapInsert_self _ _ _, setInsert_self _ _⟩
    · rw [mapInsert_ne _ _ hi] at hmap
      obtain ⟨s₀, hs₀, hmem⟩ := inv1 id' a' hmap
      by_cases hp : sha a' = sha new_owner
      · rw [hp, mapInsert_self]
        refine ⟨_, rfl, ?_⟩
        rw [setInsert_ne _ hi, ← hp, hs₀, Option.getD_some]
        exact hmem
      · rw [mapInsert_ne _ _ hp]
        exact ⟨s₀, hs₀, hmem⟩
  · intro id' hh s₂ hset hmem
    rw [sA, hA] at hset
    rw [sF, hF]
    by_cases hp : hh = sha new_owner
    · subst hp
      rw [mapInsert_self] at hset
      injection hset with e
      subst e
      by_cases hi : id' = st.next_corgi_id
      · subst hi
        exact ⟨new_owner, mapInsert_self _ _ _, rfl⟩
      · rw [setInsert_ne _ hi] at hmem
        cases hA0 : st.account_corgis (sha new_owner) with
        | none =>
          rw [hA0] at hmem
          simp [emptySet] at hmem
        | some t =>
          rw [hA0, Option.getD_some] at hmem
          obtain ⟨a, ha, hsha⟩ := inv2 id' (sha new_owner) t hA0 hmem
          refine ⟨a, ?_, hsha⟩
          rw [mapInsert_ne _ _ hi]
          exact ha
    · rw [mapInsert_ne _ _ hp] at hset
      obtain ⟨a, ha, hsha⟩ := inv2 id' hh s₂ hset hmem
      have hi : id' ≠ st.next_corgi_id := by
        intro e
        subst e
        rw [hfresh] at ha
        cases ha
      refine ⟨a, ?_, hsha⟩
      rw [mapInsert_ne _ _ hi]
      exact ha
  · intro id' hle
    rw [sN, hN] at hle
    rw [sF, hF]
    have hi : id' ≠ st.next_corgi_id := Nat.ne_of_gt (Nat.lt_of_succ_le hle)
    rw [mapInsert_ne _ _ hi]
    exact inv3 id' (Nat.le_of_succ_le hle)

theorem registryInv_create {sha : AccountId → Hash}
    {prng : List Nat → Nat × Nat} {entropy : List Nat} {st : Corgi3D}
    {pred : AccountId} {dep : Nat} {n c b q : String}
    {out : Corgi3D × String × TokenId}
    (hInv : RegistryInv sha st)
    (h : create_corgi sha prng entropy st pred dep n c b q = .ok out) :
    RegistryInv sha out.1 := by
  obtain ⟨-, corgi, hout⟩ := create_ok_elim h
  subst hout
  exact registryInv_fresh_save st pred rfl rfl rfl rfl hInv

/-- Deleting a token from its current owner (without re-saving it) preserves
the invariant. -/
theorem registryInv_delete_only {sha : AccountId → Hash} {st : Corgi3D}
    {id : TokenId} {account : AccountId} {st₁ : Corgi3D}
    (hInv : RegistryInv sha st)
    (hfwd : st.corgi_to_account id = some account)
    (hd : delete_corgi_from_account sha st id account = .ok st₁) :
    RegistryInv sha st₁ := by
  obtain ⟨inv1, inv2, inv3⟩ := hInv
  obtain ⟨s, hs, hF, hA, hN, -, -, -⟩ := delete_fields hd
  refine ⟨?_, ?_, ?_⟩
  · intro id' a' hmap
    rw [hF] at hmap
    rw [hA]
    by_cases hi : id' = id
    · subst hi
      rw [mapRemove_self] at hmap
      cases hmap
    · rw [mapRemove_ne _ hi] at hmap
      obtain ⟨s₀, hs₀, hmem⟩ := inv1 id' a' hmap
      by_cases hp : sha a' = sha account
      · rw [hp, mapInsert_self]
        refine ⟨_, rfl, ?_⟩
        rw [setRemove_ne _ hi]
        have hAo : st.account_corgis (sha account) = some s₀ := hp ▸ hs₀
        rw [hs] at hAo
        injection hAo with e
        rw [e]
        exact hmem
      · rw [mapInsert_ne _ _ hp]
        exact ⟨s₀, hs₀, hmem⟩
  · intro id' hh s₂ hset hmem
    rw [hA] at hset
    rw [hF]
    by_cases hp : hh = sha account
    · subst hp
      rw [mapInsert_self] at hset
      injection hset with e
      subst e
      by_cases hi : id' = id
      · subst hi
        rw [setRemove_self] at hmem
        cases hmem
      · rw [setRemove_ne _ hi] at hmem
        obtain ⟨a, ha, hsha⟩ := inv2 id' (sha account) s hs hmem
        refine ⟨a, ?_, hsha⟩
        rw [mapRemove_ne _ hi]
        exact ha
    · rw [mapInsert_ne _ _ hp] at hset
      obtain ⟨a, ha, hsha⟩ := inv2 id' hh s₂ hset hmem
      have hi : id' ≠ id := by
        intro e
        subst e
        rw [hfwd] at ha
        injection ha with e'
        subst e'
        exact hp hsha.symm
      refine ⟨a, ?_, hsha⟩
      rw [mapRemove_ne _ hi]
      exact ha
  · intro id' hle
    rw [hN] at hle
    rw [hF]
    by_cases hi : id' = id
    · subst hi
      exact mapRemove_self _ _
    · rw [mapRemove_ne _ hi]
      exact inv3 id' hle

theorem registryInv_delete {sha : AccountId → Hash} {st : Corgi3D}
    {pred : AccountId} {id : TokenId} {st' : Corgi3D}
    (hInv : RegistryInv sha st) (h : delete_corgi sha st pred id = .ok st') :
    RegistryInv sha st' := by
  obtain ⟨corgi, account, st₁, -, hf, -, hd, hst⟩ := delete_corgi_ok_elim h
  subst hst
  exact registryInv_congr st₁ rfl rfl rfl (registryInv_delete_only hInv hf hd)

/-- Every reachable contract state satisfies the registry/index invariant. -/
theorem registryInv_reachable {sha : AccountId → Hash} {st : Corgi3D}
    (h : Reachable sha st) : RegistryInv sha st := by
  induction h with
  | init owner => exact registryInv_new owner sha
  | step_create prng entropy pred dep n c b q out hr hok ih =>
    exact registryInv_create ih hok
  | step_transfer pred new_owner id st' hr hok ih =>
    exact registryInv_transfer ih hok
  | step_transfer_from pred owner new_owner id st' hr hok ih =>
    exact registryInv_transfer_from ih hok
  | step_buy pred dep id out hr hok ih =>
    exact registryInv_buy ih hok
  | step_delete pred id st' hr hok ih =>
    exact registryInv_delete ih hok
  | step_grant pred escrow hr ih =>
    exact registryInv_congr _ rfl rfl rfl ih
  | step_revoke pred escrow st' hr hok ih =>
    obtain ⟨es, -, -, hst⟩ := revoke_ok_elim hok
    subst hst
    exact registryInv_congr _ rfl rfl rfl ih
  | step_sell pred id price st' hr hok ih =>
    obtain ⟨corgi, account, -, -, hst⟩ := sell_ok_elim hok
    subst hst
    exact registryInv_congr _ rfl rfl rfl ih

/-! ## The claims -/

/-- C1: Registry/index bijection: in every state reachable by any sequence of
public operations, a token id has a forward-map entry for `owner` exactly
when it lies in the index set stored at `owner`'s digest, and no id lies in
the index sets of two distinct digests. -/
theorem corgi3d_C1 (sha : AccountId → Hash) (hinj : Function.Injective sha)
    (st : Corgi3D) (hr : Reachable sha st) :
    (∀ id owner, st.corgi_to_account id = some owner ↔
        ∃ s, st.account_corgis (sha owner) = some s ∧ s id = true) ∧
    (∀ id h₁ s₁ h₂ s₂, st.account_corgis h₁ = some s₁ → s₁ id = true →
        st.account_corgis h₂ = some s₂ → s₂ id = true → h₁ = h₂) := by
  obtain ⟨inv1, inv2, inv3⟩ := registryInv_reachable hr
  constructor
  · intro id owner
    constructor
    · exact inv1 id owner
    · rintro ⟨s, hs, hmem⟩
      obtain ⟨a, ha, hsha⟩ := inv2 id (sha owner) s hs hmem
      rwa [hinj hsha] at ha
  · intro id h₁ s₁ h₂ s₂ hs₁ hm₁ hs₂ hm₂
    obtain ⟨a₁, ha₁, e₁⟩ := inv2 id h₁ s₁ hs₁ hm₁
    obtain ⟨a₂, ha₂, e₂⟩ := inv2 id h₂ s₂ hs₂ hm₂
    rw [ha₁] at ha₂
    injection ha₂ with e
    rw [← e₁, ← e₂, e]

/-- Witness for C1 at the identity digest and the reachable state obtained by
one `grant_access` from a fresh contract. -/
theorem corgi3d_C1_witness :
    (∀ id owner,
        (grant_access (fun a => a) (Corgi3D.new "alice") "alice" "bob").corgi_to_account
            id = some owner ↔
          ∃ s,
            (grant_access (fun a => a) (Corgi3D.new "alice") "alice" "bob").account_corgis
                owner = some s ∧ s id = true) ∧
    (∀ id h₁ s₁ h₂ s₂,
        (grant_access (fun a => a) (Corgi3D.new "alice") "alice" "bob").account_corgis
            h₁ = some s₁ → s₁ id = true →
        (grant_access (fun a => a) (Corgi3D.new "alice") "alice" "bob").account_corgis
            h₂ = some s₂ → s₂ id = true → h₁ = h₂) :=
  corgi3d_C1 (fun a => a) (fun _ _ h => h) _
    (Reachable.step_grant "alice" "bob" (Reachable.init "alice"))

/-- C8: `check_access` called by `pred` against `account` returns true iff
`pred = account` or `account`'s delegation entry exists and contains
`pred`'s digest; self-access always holds. -/
theorem corgi3d_C8 (sha : AccountId → Hash) (st : Corgi3D)
    (pred account : AccountId) :
    (check_access sha st pred account = true ↔
      pred = account ∨
        ∃ s, st.account_gives_access (sha account) = some s ∧
          s (sha pred) = true) ∧
    check_access sha st account account = true :=
  ⟨check_access_iff sha st pred account, check_access_self sha st account⟩

/-- C3 (code bug): the frame property of the claim fails in the program.
At storage level, `olga` first grants `wanda` — her delegate set is
freshly created, so it gets the constant key base — and then `alice`, a
distinct account with no delegate set of her own, grants `bob`. Before
`alice`'s grant, `check_access` by `bob` against `olga` is false; after
it, the raw `contains` read under the shared `"new-access-set"` key base
makes it true: granting on `alice`'s account added a delegate to `olga`.
The grant does also make `check_access` by `bob` against `alice` true, as
the claim's part (1) states. The per-account prefix `b'u' ++ hash` used
for the owner index sets in `save_corgi_to_account` shows unique prefixes
were the author's intent, so the claim matches the intent and the
constant prefix in `grant_access` is the slip. -/
theorem corgi3d_C3 :
    ("olga" : AccountId) ≠ "alice" ∧
    check_access_storage (fun a => a)
        (grant_access_storage (fun a => a) accessStateEmpty "olga" "wanda")
        "bob" "olga" = false ∧
    check_access_storage (fun a => a)
        (grant_access_storage (fun a => a)
          (grant_access_storage (fun a => a) accessStateEmpty "olga" "wanda")
          "alice" "bob")
        "bob" "olga" = true ∧
    check_access_storage (fun a => a)
        (grant_access_storage (fun a => a)
          (grant_access_storage (fun a => a) accessStateEmpty "olga" "wanda")
          "alice" "bob")
        "bob" "alice" = true :=
  ⟨by decide, rfl, rfl, rfl⟩

/-- C9 counterexample: with `B = A` (a self-grant followed by a
self-revoke), `revoke_access` succeeds but `check_access` by `B` against `A`
still returns true (self-access), contradicting the claim that it returns
false after every successful revoke. -/
theorem corgi3d_C9_counterexample :
    ∃ st₂, revoke_access (fun a => a)
        (grant_access (fun a => a) (Corgi3D.new "alice") "alice" "alice")
        "alice" "alice" = .ok st₂ ∧
      check_access (fun a => a) st₂ "alice" "alice" = true :=
  ⟨_, rfl, rfl⟩

/-- C9 (amended): `revoke_access` by `A` for `B` fails with the
no-delegation error when `A` has no delegate set, fails with the
delegate-not-found error when the set exists but lacks `B`'s digest, and
otherwise succeeds, after which — provided `B ≠ A` — `check_access` by `B`
against `A` returns false. -/
theorem corgi3d_C9 (sha : AccountId → Hash) (st : Corgi3D)
    (A B : AccountId) :
    (st.account_gives_access (sha A) = none →
      revoke_access sha st A B = .error "Access does not exist.") ∧
    (∀ s, st.account_gives_access (sha A) = some s → s (sha B) = false →
      revoke_access sha st A B = .error "Did not find access for escrow ID.") ∧
    (∀ s, st.account_gives_access (sha A) = some s → s (sha B) = true →
      ∃ st', revoke_access sha st A B = .ok st' ∧
        (B ≠ A → check_access sha st' B A = false)) := by
  refine ⟨?_, ?_, ?_⟩
  · intro h
    unfold revoke_access
    dsimp only []
    rw [h]
  · intro s hs hb
    unfold revoke_access
    dsimp only []
    rw [hs]
    dsimp only []
    rw [if_neg (by simp [hb])]
  · intro s hs hb
    unfold revoke_access
    dsimp only []
    rw [hs]
    dsimp only []
    rw [if_pos hb]
    refine ⟨_, rfl, ?_⟩
    intro hBA
    unfold check_access
    dsimp only []
    rw [if_neg hBA]
    rw [mapInsert_self]
    exact setRemove_self _ _

/-- Witness for C9: revoking from a fresh contract reports the
no-delegation error, and revoking `bob` from `demoState` (where `alice`
granted `bob`) succeeds with `bob`'s access to `alice` gone. -/
theorem corgi3d_C9_witness :
    revoke_access (fun a => a) (Corgi3D.new "alice") "alice" "bob"
        = .error "Access does not exist." ∧
    ∃ st', revoke_access (fun a => a) (demoState false 0) "alice" "bob"
        = .ok st' ∧
      (("bob" : AccountId) ≠ "alice" →
        check_access (fun a => a) st' "bob" "alice" = false) := by
  constructor
  · exact (corgi3d_C9 (fun a => a) (Corgi3D.new "alice") "alice" "bob").1 rfl
  · obtain ⟨st', h1, h2⟩ :=
      (corgi3d_C9 (fun a => a) (demoState false 0) "alice" "bob").2.2 _ rfl rfl
    exact ⟨st', h1, h2⟩

/-- C10: trait-generation determinism and seed structure: the same
`(entropy, id)` pair always yields the same result; the 32-byte seed carries
the first `min 24 (length entropy)` entropy bytes in positions below 24
(zero-padded up to 24) and the little-endian id bytes in positions 24..32;
and the generated (tier, value) pair is a pure function of that seed. -/
theorem corgi3d_C10 (prng : List Nat → Nat × Nat) (entropy : List Nat)
    (id : Nat) :
    (∀ entropy2 id2, entropy2 = entropy → id2 = id →
        generate_rate_sausage prng entropy2 id2
          = generate_rate_sausage prng entropy id) ∧
    (build_seed entropy id).length = 32 ∧
    (∀ i, i < 24 →
        (build_seed entropy id).getD i 0
          = if i < min 24 entropy.length then entropy.getD i 0 else 0) ∧
    (∀ i, 24 ≤ i → i < 32 →
        (build_seed entropy id).getD i 0 = id / 256 ^ (i - 24) % 256) ∧
    generate_rate_sausage prng entropy id
      = rate_from_seed prng (build_seed entropy id) := by
  refine ⟨?_, build_seed_length entropy id, ?_, ?_, rfl⟩
  · intro e2 i2 he hi
    rw [he, hi]
  · intro i hi
    exact build_seed_getD_lo entropy id hi
  · intro i h1 h2
    exact build_seed_getD_hi entropy id h1 h2

/-- Witness for C10 at entropy `[1, 2, 3]` and id `5`: seed byte 2 is the
third entropy byte and seed byte 24 is the low id byte. -/
theorem corgi3d_C10_witness :
    (build_seed [1, 2, 3] 5).getD 2 0 = 3 ∧
    (build_seed [1, 2, 3] 5).getD 24 0 = 5 :=
  ⟨(corgi3d_C10 (fun _ => (7, 42)) [1, 2, 3] 5).2.2.1 2 (by decide),
   (corgi3d_C10 (fun _ => (7, 42)) [1, 2, 3] 5).2.2.2.1 24 (by decide)
     (by decide)⟩

/-- C2 counterexample: `alice` owns token 0 with `selling = true`; her
`transfer` to `bob` succeeds, yet the stored item record is untouched and
still has `selling = true` — transfer does not clear the listing. -/
theorem corgi3d_C2_counterexample :
    (demoState true 10).corgis 0 = some (demoCorgi true 10) ∧
    (demoCorgi true 10).selling = true ∧
    ∃ st', transfer (fun a => a) (demoState true 10) "alice" "bob" 0
        = .ok st' ∧
      st'.corgis 0 = some (demoCorgi true 10) :=
  ⟨rfl, rfl, _, rfl, rfl⟩

/-- C2 (amended): a successful `transfer` or `transfer_from` leaves the item
registry `corgis` — including every item's `selling` flag and
`selling_price` — completely unchanged; an ownership change through these
operations does not clear a listing (only `buy_corgi` does). -/
theorem corgi3d_C2 (sha : AccountId → Hash) (st : Corgi3D) :
    (∀ pred new_owner token_id st',
        transfer sha st pred new_owner token_id = .ok st' →
        st'.corgis = st.corgis) ∧
    (∀ pred owner_id new_owner token_id st',
        transfer_from sha st pred owner_id new_owner token_id = .ok st' →
        st'.corgis = st.corgis) := by
  constructor
  · intro pred new_owner token_id st' h
    obtain ⟨owner, st₁, -, -, hd, hst⟩ := transfer_ok_elim h
    subst hst
    obtain ⟨s, -, -, -, -, hC, -, -⟩ := delete_fields hd
    rw [(save_fields sha st₁ token_id new_owner).2.2.2.1, hC]
  · intro pred owner_id new_owner token_id st' h
    obtain ⟨owner, st₁, -, -, -, hd, hst⟩ := transfer_from_ok_elim h
    subst hst
    obtain ⟨s, -, -, -, -, hC, -, -⟩ := delete_fields hd
    rw [(save_fields sha st₁ token_id new_owner).2.2.2.1, hC]

/-- Witness for C2 (amended): the concrete transfer of the listed token 0
from `alice` to `bob` preserves the whole `corgis` map. -/
theorem corgi3d_C2_witness :
    ∃ st', transfer (fun a => a) (demoState true 10) "alice" "bob" 0
        = .ok st' ∧
      st'.corgis = (demoState true 10).corgis :=
  ⟨_, rfl,
    (corgi3d_C2 (fun a => a) (demoState true 10)).1 "alice" "bob" 0 _ rfl⟩

/-- C7: `transfer` succeeds exactly for the current owner: called by the
owner it transfers the token to the new owner, called by anyone else —
including a delegate — it fails with the unauthorized-transfer panic (the
host then rolls the call back, leaving the state unchanged). -/
theorem corgi3d_C7 (sha : AccountId → Hash) (st : Corgi3D)
    (caller new_owner O : AccountId) (id : TokenId) (oset : TokenId → Bool)
    (hO : st.corgi_to_account id = some O)
    (hset : st.account_corgis (sha O) = some oset) :
    (caller = O →
      ∃ st', transfer sha st caller new_owner id = .ok st' ∧
        st'.corgi_to_account id = some new_owner) ∧
    (caller ≠ O →
      transfer sha st caller new_owner id
        = .error "Attempt to call transfer on tokens belonging to another account.") := by
  constructor
  · intro hc
    obtain ⟨st₁, hd⟩ := delete_ok_of_some id hset
    have htr : transfer sha st caller new_owner id
        = .ok (save_corgi_to_account sha st₁ id new_owner) := by
      unfold transfer
      rw [hO]
      dsimp only []
      rw [if_neg (not_not_intro hc), hd]
    exact ⟨_, htr,
      by rw [(save_fields sha st₁ id new_owner).1, mapInsert_self]⟩
  · intro hc
    unfold transfer
    rw [hO]
    dsimp only []
    rw [if_pos hc]

/-- Witness for C7: on the concrete state, the owner `alice` can transfer
token 0 while the delegate `bob` cannot. -/
theorem corgi3d_C7_witness :
    (∃ st', transfer (fun a => a) (demoState false 0) "alice" "carol" 0
        = .ok st' ∧ st'.corgi_to_account 0 = some "carol") ∧
    transfer (fun a => a) (demoState false 0) "bob" "carol" 0
      = .error "Attempt to call transfer on tokens belonging to another account." :=
  ⟨(corgi3d_C7 (fun a => a) (demoState false 0) "alice" "carol" "alice" 0 _
      rfl rfl).1 rfl,
   (corgi3d_C7 (fun a => a) (demoState false 0) "bob" "carol" "alice" 0 _
      rfl rfl).2 (by decide)⟩

/-- C6: `transfer_from` first checks the claimed owner (OwnerMismatch
failure, regardless of any delegation), then the caller's access to the
actual owner (Unauthorized failure unless the caller is the owner or is in
the owner's delegate set), and otherwise moves the token to the new
owner. -/
theorem corgi3d_C6 (sha : AccountId → Hash) (st : Corgi3D)
    (caller claimed new_owner O : AccountId) (id : TokenId)
    (oset : TokenId → Bool)
    (hO : st.corgi_to_account id = some O)
    (hset : st.account_corgis (sha O) = some oset) :
    (claimed ≠ O →
      transfer_from sha st caller claimed new_owner id
        = .error "Attempt to transfer a token from a different owner.") ∧
    (claimed = O →
      ¬(caller = O ∨
          ∃ s, st.account_gives_access (sha O) = some s ∧
            s (sha caller) = true) →
      transfer_from sha st caller claimed new_owner id
        = .error "Attempt to transfer a token with no access.") ∧
    (claimed = O →
      (caller = O ∨
        ∃ s, st.account_gives_access (sha O) = some s ∧
          s (sha caller) = true) →
      ∃ st', transfer_from sha st caller claimed new_owner id = .ok st' ∧
        st'.corgi_to_account id = some new_owner) := by
  refine ⟨?_, ?_, ?_⟩
  · intro hc
    unfold transfer_from
    rw [hO]
    dsimp only []
    rw [if_pos hc]
  · intro hceq hna
    have hca : ¬ check_access sha st caller O = true :=
      fun h => hna ((check_access_iff sha st caller O).mp h)
    unfold transfer_from
    rw [hO]
    dsimp only []
    rw [if_neg (not_not_intro hceq), if_pos hca]
  · intro hceq hdisj
    have hca : check_access sha st caller O = true :=
      (check_access_iff sha st caller O).mpr hdisj
    obtain ⟨st₁, hd⟩ := delete_ok_of_some id hset
    have htr : transfer_from sha st caller claimed new_owner id
        = .ok (save_corgi_to_account sha st₁ id new_owner) := by
      unfold transfer_from
      rw [hO]
      dsimp only []
      rw [if_neg (not_not_intro hceq), if_neg (not_not_intro hca), hd]
    exact ⟨_, htr,
      by rw [(save_fields sha st₁ id new_owner).1, mapInsert_self]⟩

/-- Witness for C6: on the concrete state, a wrong claimed owner gives
OwnerMismatch even for the valid delegate `bob`, and the delegate `bob` with
the right claimed owner moves the token. -/
theorem corgi3d_C6_witness :
    transfer_from (fun a => a) (demoState false 0) "bob" "carol" "mike" 0
        = .error "Attempt to transfer a token from a different owner." ∧
    ∃ st', transfer_from (fun a => a) (demoState false 0) "bob" "alice"
        "mike" 0 = .ok st' ∧
      st'.corgi_to_account 0 = some "mike" :=
  ⟨(corgi3d_C6 (fun a => a) (demoState false 0) "bob" "carol" "mike"
      "alice" 0 _ rfl rfl).1 (by decide),
   (corgi3d_C6 (fun a => a) (demoState false 0) "bob" "alice" "mike"
      "alice" 0 _ rfl rfl).2.2 rfl (Or.inr ⟨_, rfl, rfl⟩)⟩

/-- C4: buying a listed item with payment below the listing price fails with
the insufficient-payment panic (the host rolls the call back, leaving
ownership and listing unchanged); with payment at least the price it
succeeds: the stored item gets `selling = false`, the id leaves the
seller's index set and enters the buyer's, the forward map points to the
buyer, and the full attached amount is transferred to the seller. -/
theorem corgi3d_C4 (sha : AccountId → Hash) (st : Corgi3D)
    (buyer seller : AccountId) (P : Nat) (id : TokenId) (c : Corgi)
    (sset : TokenId → Bool)
    (hc : st.corgis id = some c) ( _hsell : c.selling = true)
    (hP : c.selling_price = P)
    (hf : st.corgi_to_account id = some seller)
    (hset : st.account_corgis (sha seller) = some sset)
    (hdiff : sha buyer ≠ sha seller) :
    (∀ dep, dep < P → buy_corgi sha st buyer dep id
        = .error "Don\x27t pay enough money to buy corgi") ∧
    (∀ dep, P ≤ dep →
      ∃ st', buy_corgi sha st buyer dep id = .ok (st', seller, dep) ∧
        (∃ c', st'.corgis id = some c' ∧ c'.selling = false) ∧
        st'.corgi_to_account id = some buyer ∧
        (∃ s', st'.account_corgis (sha seller) = some s' ∧ s' id = false) ∧
        (∃ s', st'.account_corgis (sha buyer) = some s' ∧ s' id = true)) := by
  constructor
  · intro dep hdep
    unfold buy_corgi
    rw [hc]
    dsimp only []
    rw [hf]
    dsimp only []
    rw [if_pos (show dep < c.selling_price by rw [hP]; exact hdep)]
  · intro dep hdep
    obtain ⟨st₁, hd⟩ := delete_ok_of_some id
      (show ({ st with
          corgis := mapInsert id { c with selling := false } st.corgis } :
            Corgi3D).account_corgis (sha seller) = some sset from hset)
    obtain ⟨s₁, hs₁, dF, dA, dN, dC, -, -⟩ := delete_fields hd
    have hbuy : buy_corgi sha st buyer dep id
        = .ok (save_corgi_to_account sha st₁ id buyer, seller, dep) := by
      unfold buy_corgi
      rw [hc]
      dsimp only []
      rw [hf]
      dsimp only []
      rw [if_neg (show ¬ dep < c.selling_price by
        rw [hP]; exact Nat.not_lt.mpr hdep)]
      rw [hd]
    refine ⟨_, hbuy, ?_, ?_, ?_, ?_⟩
    · refine ⟨{ c with selling := false }, ?_, rfl⟩
      rw [(save_fields sha st₁ id buyer).2.2.2.1, dC]
      exact mapInsert_self _ _ _
    · rw [(save_fields sha st₁ id buyer).1, mapInsert_self]
    · refine ⟨setRemove id s₁, ?_, setRemove_self _ _⟩
      rw [(save_fields sha st₁ id buyer).2.1,
        mapInsert_ne _ _ (Ne.symm hdiff), dA]
      exact mapInsert_self _ _ _
    · refine ⟨setInsert id ((st₁.account_corgis (sha buyer)).getD emptySet),
        ?_, setInsert_self _ _⟩
      rw [(save_fields sha st₁ id buyer).2.1]
      exact mapInsert_self _ _ _

/-- Witness for C4 on the concrete state where `alice` lists token 0 at
price 10: `mike` paying 9 fails, `mike` paying 10 buys the token. -/
theorem corgi3d_C4_witness :
    buy_corgi (fun a => a) (demoState true 10) "mike" 9 0
        = .error "Don\x27t pay enough money to buy corgi" ∧
    ∃ st', buy_corgi (fun a => a) (demoState true 10) "mike" 10 0
        = .ok (st', "alice", 10) ∧
      (∃ c', st'.corgis 0 = some c' ∧ c'.selling = false) ∧
      st'.corgi_to_account 0 = some "mike" ∧
      (∃ s', st'.account_corgis "alice" = some s' ∧ s' 0 = false) ∧
      (∃ s', st'.account_corgis "mike" = some s' ∧ s' 0 = true) :=
  ⟨(corgi3d_C4 (fun a => a) (demoState true 10) "mike" "alice" 10 0 _ _
      rfl rfl rfl rfl rfl (by decide)).1 9 (by decide),
   (corgi3d_C4 (fun a => a) (demoState true 10) "mike" "alice" 10 0 _ _
      rfl rfl rfl rfl rfl (by decide)).2 10 (by decide)⟩

/-- C5: `buy_corgi` never checks that the item is listed: for an item with
`selling = false` and `selling_price = 0` (the state of every freshly
created item) any caller with any attached payment, including zero, buys
the item and becomes its owner; and in a state where every registered item
has a forward-map entry and an owner index set, the only failure conditions
of `buy_corgi` are an unknown id and a payment below `selling_price`. -/
theorem corgi3d_C5 (sha : AccountId → Hash) :
    (∀ st caller dep id c owner oset,
        st.corgis id = some c → c.selling = false → c.selling_price = 0 →
        st.corgi_to_account id = some owner →
        st.account_corgis (sha owner) = some oset →
        ∃ st', buy_corgi sha st caller dep id = .ok (st', owner, dep) ∧
          st'.corgi_to_account id = some caller) ∧
    (∀ st caller dep id e,
        (∀ id' c', st.corgis id' = some c' →
          ∃ a s, st.corgi_to_account id' = some a ∧
            st.account_corgis (sha a) = some s) →
        buy_corgi sha st caller dep id = .error e →
        st.corgis id = none ∨
          ∃ c, st.corgis id = some c ∧ dep < c.selling_price) := by
  constructor
  · intro st caller dep id c owner oset hc hsell hP hf hset
    obtain ⟨st₁, hd⟩ := delete_ok_of_some id
      (show ({ st with
          corgis := mapInsert id { c with selling := false } st.corgis } :
            Corgi3D).account_corgis (sha owner) = some oset from hset)
    have hbuy : buy_corgi sha st caller dep id
        = .ok (save_corgi_to_account sha st₁ id caller, owner, dep) := by
      unfold buy_corgi
      rw [hc]
      dsimp only []
      rw [hf]
      dsimp only []
      rw [if_neg (show ¬ dep < c.selling_price by
        rw [hP]; exact Nat.not_lt_zero dep)]
      rw [hd]
    exact ⟨_, hbuy,
      by rw [(save_fields sha st₁ id caller).1, mapInsert_self]⟩
  · intro st caller dep id e hwf herr
    cases hc : st.corgis id with
    | none => exact Or.inl rfl
    | some c =>
      obtain ⟨a, s, hf, hset⟩ := hwf id c hc
      by_cases hdep : dep < c.selling_price
      · exact Or.inr ⟨c, rfl, hdep⟩
      · exfalso
        obtain ⟨st₁, hd⟩ := delete_ok_of_some id
          (show ({ st with
              corgis := mapInsert id { c with selling := false } st.corgis } :
                Corgi3D).account_corgis (sha a) = some s from hset)
        unfold buy_corgi at herr
        rw [hc] at herr
        dsimp only [] at herr
        rw [hf] at herr
        dsimp only [] at herr
        rw [if_neg hdep, hd] at herr
        simp at herr

/-- Witness for C5: on the concrete unlisted state, `mike` buys token 0
from `alice` with zero payment; and on the listed state, a 1-unit underpaid
buy fails only because the payment is below the price. -/
theorem corgi3d_C5_witness :
    (∃ st', buy_corgi (fun a => a) (demoState false 0) "mike" 0 0
        = .ok (st', "alice", 0) ∧ st'.corgi_to_account 0 = some "mike") ∧
    ((demoState true 10).corgis 0 = none ∨
      ∃ c, (demoState true 10).corgis 0 = some c ∧ 1 < c.selling_price) := by
  constructor
  · exact (corgi3d_C5 (fun a => a)).1 (demoState false 0) "mike" 0 0 _
      "alice" _ rfl rfl rfl rfl rfl
  · refine (corgi3d_C5 (fun a => a)).2 (demoState true 10) "mike" 1 0
      "Don\x27t pay enough money to buy corgi" ?_ rfl
    intro id' c' h
    by_cases he : id' = 0
    · subst he
      exact ⟨"alice", _, rfl, rfl⟩
    · simp only [demoState] at h
      rw [if_neg he] at h
      cases h

/-- Witness for C8 on the concrete state: the characterisation and
self-access at concrete accounts. -/
theorem corgi3d_C8_witness :
    (check_access (fun a => a) (demoState false 0) "bob" "alice" = true ↔
      ("bob" : AccountId) = "alice" ∨
        ∃ s, (demoState false 0).account_gives_access "alice" = some s ∧
          s "bob" = true) ∧
    check_access (fun a => a) (demoState false 0) "alice" "alice" = true :=
  corgi3d_C8 (fun a => a) (demoState false 0) "bob" "alice"
